import Mathlib

/-!
Verification development for the prime-parser hydropower PDF extraction
engine.  Strings from PDF cells are modelled as lists of characters
(`Str`), cells as optional strings (`Cell`), and Python `Decimal` values
as exact scaled integers (`Dec`, value = `num / 10 ^ scale`), with a
semantics map `Dec.toRat` into `ℚ` used by the specification statements.
Each definition below is a shallow embedding of the correspondingly
named function in `src/prime_parser/core/pdf_parser.py` or
`src/prime_parser/utils/retry.py`.
-/

deriving instance DecidableEq for Except

/-- A cell string: Python `str` modelled as a list of characters. -/
abbrev Str := List Char

/-- A table cell as delivered by the PDF table extractor: either absent
(`None`) or a text value. -/
abbrev Cell := Option Str

/-- Convenience constructor for concrete cells. -/
def someStr (s : String) : Cell := some s.toList

/-- Python `str.strip()`: remove leading and trailing whitespace. -/
def pyStrip (s : Str) : Str :=
  ((s.dropWhile Char.isWhitespace).reverse.dropWhile Char.isWhitespace).reverse

/-- Python `Decimal`: an exact decimal number, an integer mantissa with
a decimal scale; the represented value is `num / 10 ^ scale`. -/
structure Dec where
  num : ℤ
  scale : ℕ
deriving Repr, DecidableEq

namespace Dec

/-- The rational value represented by a `Dec`. -/
def toRat (a : Dec) : ℚ := (a.num : ℚ) / 10 ^ a.scale

/-- Decimal addition (align scales; exact, no rounding). -/
def add (a b : Dec) : Dec :=
  let m := max a.scale b.scale
  ⟨a.num * 10 ^ (m - a.scale) + b.num * 10 ^ (m - b.scale), m⟩

/-- Decimal negation. -/
def neg (a : Dec) : Dec := ⟨-a.num, a.scale⟩

/-- Decimal subtraction. -/
def sub (a b : Dec) : Dec := a.add b.neg

/-- Python `abs` on `Decimal`. -/
def dabs (a : Dec) : Dec := if a.num < 0 then ⟨-a.num, a.scale⟩ else a

/-- Numeric `<=` on decimals (cross-multiplied; Python `Decimal.__le__`). -/
def ble (a b : Dec) : Bool := a.num * 10 ^ b.scale ≤ b.num * 10 ^ a.scale

/-- Numeric `<` on decimals (Python `Decimal.__lt__`). -/
def blt (a b : Dec) : Bool := a.num * 10 ^ b.scale < b.num * 10 ^ a.scale

/-- Numeric `==` on decimals (Python `Decimal.__eq__`). -/
def beq (a b : Dec) : Bool := a.num * 10 ^ b.scale = b.num * 10 ^ a.scale

/-- Python `v == v.to_integral_value()`: the decimal is an integer,
i.e. the mantissa is divisible by `10 ^ scale`. -/
def isIntegral (a : Dec) : Bool := a.num % (10 : ℤ) ^ a.scale = 0

end Dec

/-- Value of a digit string, most significant digit first
(`int("...")` semantics on digit-only strings). -/
def digitsVal (cs : Str) : ℕ :=
  cs.foldl (fun a c => 10 * a + (c.toNat - 48)) 0

/-- Characters kept by the cleaning step
`re.sub(r"[^\d\.\-]", "", ...)`: digits, period, minus. -/
def keepChar (c : Char) : Bool := c.isDigit || c = '.' || c = '-'

/-- Python's `Decimal(cleaned)` constructor restricted to strings over
the alphabet `{digit, '.', '-'}` (the only characters the cleaning step
can leave).  Accepts an optional single leading minus sign followed by
digits with at most one period and at least one digit; everything else
(stray minus signs, several periods, no digits) raises
`InvalidOperation`, modelled here by `none`. -/
def decimalOfChars (cs : Str) : Option Dec :=
  let signed : Bool := cs.head? = some '-'
  let body := if signed then cs.tail else cs
  if body.any (fun c => !(c.isDigit || c = '.')) then none
  else if 2 ≤ body.count '.' then none
  else
    let intPart := body.takeWhile (fun c => c ≠ '.')
    let fracPart := (body.dropWhile (fun c => c ≠ '.')).tail
    if intPart.length + fracPart.length = 0 then none
    else
      let mag : ℤ := (digitsVal (intPart ++ fracPart) : ℤ)
      some ⟨if signed then -mag else mag, fracPart.length⟩

/-- Body of `PDFParser._parse_decimal` with the `Decimal`-constructor
failure left uncaught (`.error ()` marks where Python would raise
`InvalidOperation`); the places that return `None` normally are `.ok none`. -/
def parse_decimal_body (value : Cell) : Except Unit (Option Dec) :=
  match value with
  | none => .ok none
  | some v =>
    let s := pyStrip v
    if s = [] ∨ s = ['-'] ∨ s = ['—'] then .ok none
    else
      let normalized := s.map (fun c => if c = ',' then '.' else c)
      let cleaned := normalized.filter keepChar
      if cleaned = [] then .ok none
      else
        match decimalOfChars cleaned with
        | some q => .ok (some q)
        | none => .error ()

/-- Embedding of `PDFParser._parse_decimal`: parse a decimal from a cell, handling
commas and whitespace; every failure (including the caught
`InvalidOperation`) yields `none`. -/
def parse_decimal (value : Cell) : Option Dec :=
  match value with
  | none => none
  | some v =>
    let s := pyStrip v
    if s = [] ∨ s = ['-'] ∨ s = ['—'] then none
    else
      let normalized := s.map (fun c => if c = ',' then '.' else c)
      let cleaned := normalized.filter keepChar
      if cleaned = [] then none
      else
        match decimalOfChars cleaned with
        | some q => some q
        | none => none

/-- Constant `MIN_ENERGY = Decimal("0.1")`. -/
def MIN_ENERGY : Dec := ⟨1, 1⟩

/-- Constant `MAX_ENERGY = Decimal("1000")`. -/
def MAX_ENERGY : Dec := ⟨1000, 0⟩

/-- A sum-matching candidate column, as recorded by `_find_sum_column`. -/
structure Candidate where
  col_idx : ℕ
  summary_val : Dec
  total : Dec
  difference : Dec
  valid_count : ℕ
deriving Repr, DecidableEq

/-- Embedding of `str(summary_row[col_idx]).strip() if summary_row[col_idx] else ""`:
the stripped text of a cell, empty for an absent or empty cell. -/
def cellRaw (c : Cell) : Str :=
  match c with
  | none => []
  | some s => pyStrip s

/-- One iteration of the `total`/`valid_count` loop of
`_find_sum_column`: an out-of-range or unparsable cell contributes
nothing. -/
def gesStep (col_idx : ℕ) (acc : Dec × ℕ) (row : List Cell) : Dec × ℕ :=
  match parse_decimal (row.getD col_idx none) with
  | some v => (acc.1.add v, acc.2 + 1)
  | none => acc

/-- Sum of the decimal-parsed station-row values at one column together
with the count of rows that contributed. -/
def gesSum (ges_rows : List (List Cell)) (col_idx : ℕ) : Dec × ℕ :=
  ges_rows.foldl (gesStep col_idx) (⟨0, 0⟩, 0)

/-- One iteration of the candidate loop of `_find_sum_column`: the
candidate accepted at a column, if any. -/
def candAt (ges_rows : List (List Cell)) (summary_row : List Cell) (col_idx : ℕ) :
    Option Candidate :=
  let cell := summary_row.getD col_idx none
  let cell_raw := cellRaw cell
  if cell_raw.head? = some '+' ∨ cell_raw.head? = some '-' then none
  else
    match parse_decimal cell with
    | none => none
    | some summary_val =>
      if ¬(Dec.ble MIN_ENERGY summary_val.dabs = true ∧
           Dec.ble summary_val.dabs MAX_ENERGY = true) then none
      else if summary_val.isIntegral = true ∧ Dec.blt ⟨50, 0⟩ summary_val = true then none
      else
        let st := gesSum ges_rows col_idx
        let difference := (summary_val.sub st.1).dabs
        if Dec.blt difference ⟨10, 1⟩ = true ∧ 0 < st.2 then
          some ⟨col_idx, summary_val, st.1, difference, st.2⟩
        else none

/-- The searched window of column indices, `range(15, min(26, len(summary_row)))`. -/
def colWindow (summary_row : List Cell) : List ℕ :=
  List.range' 15 (min 26 summary_row.length - 15)

/-- The candidate list accumulated by `_find_sum_column`. -/
def candidates (ges_rows : List (List Cell)) (summary_row : List Cell) : List Candidate :=
  (colWindow summary_row).filterMap (candAt ges_rows summary_row)

/-- One comparison step of Python `min(..., key=...)`: the running best
is replaced only by a strictly smaller difference, so the first minimal
element wins ties. -/
def minStep (best x : Candidate) : Candidate :=
  if Dec.blt x.difference best.difference = true then x else best

/-- Python `min(candidates, key=lambda x: x["difference"])`: the first
element attaining the minimal difference. -/
def minByDiff (c : Candidate) (cs : List Candidate) : Candidate :=
  cs.foldl minStep c

/-- The typical-range filter of `_find_sum_column`:
candidates whose summary value lies in `[Decimal("5"), Decimal("50")]`. -/
def typicalCandidates (cands : List Candidate) : List Candidate :=
  cands.filter
    (fun c => Dec.ble ⟨5, 0⟩ c.summary_val && Dec.ble c.summary_val ⟨50, 0⟩)

/-- Embedding of `PDFParser._find_sum_column`: the column where the summary value
matches the sum of the station rows, or `none`. -/
def find_sum_column (ges_rows : List (List Cell)) (summary_row : List Cell) : Option ℕ :=
  match candidates ges_rows summary_row with
  | [] => none
  | c :: cs =>
    match typicalCandidates (c :: cs) with
    | [] => some (minByDiff c cs).col_idx
    | t :: ts => some (minByDiff t ts).col_idx

/-- Station rows for the worked column-inference example: values
`10.5`, `20.2`, `5.3` at column 18, and `1.0` each at column 19. -/
def exGes : List (List Cell) :=
  [ List.replicate 18 none ++ [someStr "10.5", someStr "1.0"],
    List.replicate 18 none ++ [someStr "20.2", someStr "1.0"],
    List.replicate 18 none ++ [someStr "5.3", someStr "1.0"] ]

/-- Summary row for the worked example: `36.0` at column 18 (matching
the station sum) and a mismatching `99.9` at column 19. -/
def exSummary : List Cell :=
  List.replicate 18 none ++ [someStr "36.0", someStr "99.9"]

/-- Substring containment, Python `needle in hay`. -/
def strContains (hay needle : Str) : Bool :=
  (List.range (hay.length + 1)).any (fun i => needle.isPrefixOf (hay.drop i))

/-- The keyword list `PDFParser.SUMMARY_ROW_KEYWORDS`. -/
def SUMMARY_ROW_KEYWORDS : List Str :=
  [("Ўзбекгидроэнерго").toList, ("АЖ").toList, ("бўйича").toList]

/-- The guarded first cell of a row: `None` when the row is empty or its
first cell is falsy (`if not row or not row[0]: continue`), otherwise
the first cell's text. -/
def rowFirstCell (row : List Cell) : Option Str :=
  match row with
  | [] => none
  | none :: _ => none
  | some s :: _ => if s = [] then none else some s

/-- Station-row test of `_find_total_energy`: the first cell contains
`"ГЭС"` or `"КГЭС"` but not `"Ўзбекгидроэнерго"`. -/
def isGesRow (row : List Cell) : Bool :=
  match rowFirstCell row with
  | none => false
  | some fc =>
    (strContains fc ("ГЭС").toList || strContains fc ("КГЭС").toList) &&
      !strContains fc ("Ўзбекгидроэнерго").toList

/-- Summary-row test of `_find_total_energy`: the first cell contains
every keyword of `SUMMARY_ROW_KEYWORDS`. -/
def isSummaryRow (row : List Cell) : Bool :=
  match rowFirstCell row with
  | none => false
  | some fc => SUMMARY_ROW_KEYWORDS.all (fun kw => strContains fc kw)

/-- One row of the classification loop of `_find_total_energy`: append
to the station rows and/or overwrite the summary-row variable. -/
def classifyStep (acc : List (List Cell) × Option (List Cell)) (row : List Cell) :
    List (List Cell) × Option (List Cell) :=
  let acc1 := if isGesRow row then (acc.1 ++ [row], acc.2) else acc
  if isSummaryRow row then (acc1.1, some row) else acc1

/-- The row-classification loop of `_find_total_energy`: collect the
station rows in order and keep the summary row variable, which is
overwritten on every keyword match. -/
def classifyRows (tables : List (List (List Cell))) :
    List (List Cell) × Option (List Cell) :=
  tables.foldl (fun acc table => table.foldl classifyStep acc) ([], none)

/-- Typed extraction failures (`DataExtractionError`) raised by
`_find_total_energy` and `_extract_energy_from_row`; the fallback error
carries the raw row contents, which the Python message interpolates. -/
inductive ExtractErr where
  | summaryRowNotFound
  | noEnergyInRow (row : List Cell)
deriving Repr, DecidableEq

/-- The per-cell test of the fallback loop in `_extract_energy_from_row`:
the parsed value of the cell when both plausibility checks pass. -/
def fallbackHit (cell : Cell) : Option Dec :=
  match parse_decimal cell with
  | none => none
  | some val =>
    if Dec.ble ⟨1, 2⟩ val.dabs = true ∧ Dec.ble val.dabs ⟨1000, 0⟩ = true then
      if Dec.ble ⟨10, 0⟩ val.dabs = true ∧ Dec.ble val.dabs ⟨200, 0⟩ = true then
        some val
      else none
    else none

/-- Embedding of `PDFParser._extract_energy_from_row`: scan the summary row left to
right and return the first plausible energy value; raise
`DataExtractionError` (with the row in the message) when none is found. -/
def extract_energy_from_row (row : List Cell) : Except ExtractErr Dec :=
  match row.findSome? fallbackHit with
  | some v => .ok v
  | none => .error (.noEnergyInRow row)

/-- Embedding of `PDFParser._find_total_energy`: classify rows, locate the summary
row, try the sum-matching column, and fall back to the row scan. -/
def find_total_energy (tables : List (List (List Cell))) : Except ExtractErr Dec :=
  let classified := classifyRows tables
  match classified.2 with
  | none => .error .summaryRowNotFound
  | some summary_row =>
    match find_sum_column classified.1 summary_row with
    | some target_col_idx =>
      match parse_decimal (summary_row.getD target_col_idx none) with
      | some val => .ok val
      | none => extract_energy_from_row summary_row
    | none => extract_energy_from_row summary_row

/-- A complete miniature table: keyword-labelled summary row plus the
worked station rows. -/
def exTables : List (List (List Cell)) :=
  [[ someStr "Чорбоғ ГЭС" :: (List.replicate 17 none ++ [someStr "10.5", someStr "1.0"]),
     someStr "Хўжакент ГЭС" :: (List.replicate 17 none ++ [someStr "20.2", someStr "1.0"]),
     someStr "Ғазалкент ГЭС" :: (List.replicate 17 none ++ [someStr "5.3", someStr "1.0"]),
     someStr "Ўзбекгидроэнерго АЖ бўйича" ::
       (List.replicate 17 none ++ [someStr "36.0", someStr "99.9"]) ]]

/-- Tail of the date pattern after the day group and its period:
`(\d{2})\.(\d{4})\s*й\.` — returns `(month, year)`. -/
def matchFixed (cs : Str) : Option (ℕ × ℕ) :=
  match cs with
  | m1 :: m2 :: '.' :: y1 :: y2 :: y3 :: y4 :: rest =>
    if m1.isDigit && m2.isDigit && y1.isDigit && y2.isDigit && y3.isDigit && y4.isDigit then
      match rest.dropWhile Char.isWhitespace with
      | 'й' :: '.' :: _ => some (digitsVal [m1, m2], digitsVal [y1, y2, y3, y4])
      | _ => none
    else none
  | _ => none

/-- Match of `DATE_PATTERN = (\d{1,2})\.(\d{2})\.(\d{4})\s*й\.` at a
fixed position (the given suffix); the two-digit day is tried first
(greedy `\d{1,2}`).  Returns `(day, month, year)`. -/
def matchAt (cs : Str) : Option (ℕ × ℕ × ℕ) :=
  (match cs with
   | d1 :: d2 :: '.' :: rest =>
     if d1.isDigit && d2.isDigit then
       (matchFixed rest).map (fun my => (digitsVal [d1, d2], my.1, my.2))
     else none
   | _ => none) <|>
  (match cs with
   | d1 :: '.' :: rest =>
     if d1.isDigit then (matchFixed rest).map (fun my => (digitsVal [d1], my.1, my.2))
     else none
   | _ => none)

/-- Embedding of `re.search(DATE_PATTERN, text)`: the leftmost match. -/
def searchDate : Str → Option (ℕ × ℕ × ℕ)
  | [] => none
  | c :: rest => matchAt (c :: rest) <|> searchDate rest

/-- Gregorian leap year, as in Python's `datetime`. -/
def isLeapYear (y : ℕ) : Bool := (y % 4 = 0 && y % 100 ≠ 0) || y % 400 = 0

/-- Days in a month, as in Python's `datetime`. -/
def daysInMonth (y m : ℕ) : ℕ :=
  if m = 2 then (if isLeapYear y then 29 else 28)
  else if m = 4 ∨ m = 6 ∨ m = 9 ∨ m = 11 then 30
  else 31

/-- The arguments on which `datetime(year, month, day)` succeeds. -/
def validDate (y m d : ℕ) : Bool :=
  1 ≤ y && y ≤ 9999 && 1 ≤ m && m ≤ 12 && 1 ≤ d && d ≤ daysInMonth y m

/-- A calendar date. -/
structure CalDate where
  year : ℕ
  month : ℕ
  day : ℕ
deriving Repr, DecidableEq

/-- Typed `DataExtractionError` conditions raised by `_extract_date`. -/
inductive DateErr where
  | noTextInPage
  | patternNotFound
  | invalidDateValues
deriving Repr, DecidableEq

/-- Embedding of `PDFParser._extract_date`: extract the report date from the first
page's text (`none` models `page.extract_text()` returning `None`). -/
def extract_date (text : Option Str) : Except DateErr CalDate :=
  match text with
  | none => .error .noTextInPage
  | some t =>
    if t = [] then .error .noTextInPage
    else
      match searchDate t with
      | some (day, month, year) =>
        if validDate year month day then .ok ⟨year, month, day⟩
        else .error .invalidDateValues
      | none => .error .patternNotFound

/-- Outcome of the retry wrapper: either the wrapped operation's result,
the re-raised last failure, or the defensive `RuntimeError` after an
empty attempt loop. -/
inductive RetryErr (E : Type) where
  | raised (e : E)
  | runtimeError
deriving Repr, DecidableEq

/-- Observable trace of `retry_with_backoff`: final outcome, number of
invocations of the wrapped operation, and the sequence of sleep delays. -/
structure RetryTrace (E T : Type) where
  outcome : Except (RetryErr E) T
  calls : ℕ
  sleeps : List ℚ
deriving DecidableEq

/-- The `for attempt in range(1, max_attempts + 1)` loop of
`retry_with_backoff`, over the list of outcomes of the remaining
attempts; `attempt` is the 1-based number of the next attempt.  An
empty list falls through to the trailing `raise RuntimeError`. -/
def retryAux (b maxd : ℚ) : List (Except E T) → ℕ → RetryTrace E T
  | [], _ => ⟨.error .runtimeError, 0, []⟩
  | .ok t :: _, _ => ⟨.ok t, 1, []⟩
  | .error e :: rest, attempt =>
    if rest.isEmpty then ⟨.error (.raised e), 1, []⟩
    else
      let tr := retryAux b maxd rest (attempt + 1)
      ⟨tr.outcome, tr.calls + 1, min (b ^ attempt) maxd :: tr.sleeps⟩

/-- Embedding of `retry_with_backoff(func, max_attempts, backoff_factor, max_delay)`:
`results k` is the outcome the wrapped operation would produce on its
`k`-th invocation (`.error` = a raised exception of the retried class). -/
def retry_with_backoff (results : ℕ → Except E T) (max_attempts : ℤ)
    (backoff_factor max_delay : ℚ) : RetryTrace E T :=
  retryAux backoff_factor max_delay
    ((List.range max_attempts.toNat).map (fun i => results (i + 1))) 1

/-- Whether an attempt outcome is a raised (retried-class) exception. -/
def isFailure {E T : Type} : Except E T → Bool
  | .ok _ => false
  | .error _ => true

/-- The parsed station-row values at one column, in row order (absent or
unparsable cells contribute nothing). -/
def stationVals (ges_rows : List (List Cell)) (col_idx : ℕ) : List Dec :=
  ges_rows.filterMap (fun row => parse_decimal (row.getD col_idx none))

/-- The tight "typical daily total" window `[Decimal("10"), Decimal("200")]`
used by the fallback row scan. -/
def tightWindow (v : Dec) : Prop :=
  Dec.ble ⟨10, 0⟩ v.dabs = true ∧ Dec.ble v.dabs ⟨200, 0⟩ = true

instance (v : Dec) : Decidable (tightWindow v) := by unfold tightWindow; infer_instance

/-- Modelled from the claim's reading of the date pattern, in which the
day-marker suffix is OPTIONAL: tail `(\d{2})\.(\d{4})` after the day
group, with nothing required afterwards. -/
def matchFixedSpec (cs : Str) : Option (ℕ × ℕ) :=
  match cs with
  | m1 :: m2 :: '.' :: y1 :: y2 :: y3 :: y4 :: _ =>
    if m1.isDigit && m2.isDigit && y1.isDigit && y2.isDigit && y3.isDigit && y4.isDigit then
      some (digitsVal [m1, m2], digitsVal [y1, y2, y3, y4])
    else none
  | _ => none

/-- Modelled from the claim's reading of the date pattern
(`D.MM.YYYY` with the suffix optional), matched at a fixed position. -/
def matchAtSpec (cs : Str) : Option (ℕ × ℕ × ℕ) :=
  (match cs with
   | d1 :: d2 :: '.' :: rest =>
     if d1.isDigit && d2.isDigit then
       (matchFixedSpec rest).map (fun my => (digitsVal [d1, d2], my.1, my.2))
     else none
   | _ => none) <|>
  (match cs with
   | d1 :: '.' :: rest =>
     if d1.isDigit then (matchFixedSpec rest).map (fun my => (digitsVal [d1], my.1, my.2))
     else none
   | _ => none)

/-- Two distinct rows that both carry all three summary keywords. -/
def rowU1 : List Cell := [someStr "Ўзбекгидроэнерго АЖ бўйича", someStr "20.0"]

/-- Second keyword-bearing row, with a different value. -/
def rowU2 : List Cell := [someStr "Ўзбекгидроэнерго АЖ бўйича", someStr "30.0"]

/-- A table whose summary row holds a negative parsable cell. -/
def negTables : List (List (List Cell)) :=
  [[[someStr "Ўзбекгидроэнерго АЖ бўйича", someStr "-50"]]]

/-- Unit-noise characters around a number: anything that is not a
digit, a period, a comma, or a minus sign (whitespace qualifies). -/
def noiseChar (c : Char) : Bool := !(c.isDigit || c = '.' || c = ',' || c = '-')

/-- The comma-normalisation plus cleaning pipeline of `_parse_decimal`
applied to a character list. -/
def cleanChars (s : Str) : Str :=
  (s.map (fun c => if c = ',' then '.' else c)).filter keepChar

namespace Dec

lemma pow10_pos (s : ℕ) : (0 : ℚ) < 10 ^ s := by positivity

lemma ble_iff (a b : Dec) : Dec.ble a b = true ↔ a.toRat ≤ b.toRat := by
  unfold Dec.ble Dec.toRat
  rw [decide_eq_true_iff, div_le_div_iff₀ (pow10_pos _) (pow10_pos _)]
  constructor <;> intro h <;> exact_mod_cast h

lemma blt_iff (a b : Dec) : Dec.blt a b = true ↔ a.toRat < b.toRat := by
  unfold Dec.blt Dec.toRat
  rw [decide_eq_true_iff, div_lt_div_iff₀ (pow10_pos _) (pow10_pos _)]
  constructor <;> intro h <;> exact_mod_cast h

lemma toRat_add (a b : Dec) : (a.add b).toRat = a.toRat + b.toRat := by
  unfold Dec.add Dec.toRat
  have h1 : (10 : ℚ) ^ (max a.scale b.scale - a.scale) * 10 ^ a.scale
      = 10 ^ (max a.scale b.scale) := by
    rw [← pow_add, Nat.sub_add_cancel (le_max_left _ _)]
  have h2 : (10 : ℚ) ^ (max a.scale b.scale - b.scale) * 10 ^ b.scale
      = 10 ^ (max a.scale b.scale) := by
    rw [← pow_add, Nat.sub_add_cancel (le_max_right _ _)]
  push_cast
  rw [div_add_div _ _ (ne_of_gt (pow10_pos _)) (ne_of_gt (pow10_pos _)),
    div_eq_div_iff (ne_of_gt (pow10_pos _)) (ne_of_gt (mul_pos (pow10_pos _) (pow10_pos _)))]
  linear_combination (a.num : ℚ) * 10 ^ b.scale * h1 + (b.num : ℚ) * 10 ^ a.scale * h2

lemma toRat_neg (a : Dec) : a.neg.toRat = -a.toRat := by
  unfold Dec.neg Dec.toRat
  push_cast
  rw [neg_div]

lemma toRat_sub (a b : Dec) : (a.sub b).toRat = a.toRat - b.toRat := by
  unfold Dec.sub
  rw [toRat_add, toRat_neg, sub_eq_add_neg]

lemma toRat_dabs (a : Dec) : a.dabs.toRat = |a.toRat| := by
  unfold Dec.dabs
  split
  · rename_i h
    have : a.toRat < 0 := by
      unfold Dec.toRat
      exact div_neg_of_neg_of_pos (by exact_mod_cast h) (pow10_pos _)
    rw [abs_of_neg this]
    unfold Dec.toRat
    push_cast
    rw [neg_div]
  · rename_i h
    have : 0 ≤ a.toRat := by
      unfold Dec.toRat
      apply div_nonneg _ (le_of_lt (pow10_pos _))
      exact_mod_cast le_of_not_lt h
    rw [abs_of_nonneg this]

lemma isIntegral_iff (a : Dec) : a.isIntegral = true ↔ ∃ n : ℤ, a.toRat = (n : ℚ) := by
  unfold Dec.isIntegral Dec.toRat
  rw [decide_eq_true_iff]
  constructor
  · intro h
    obtain ⟨n, hn⟩ := Int.dvd_of_emod_eq_zero h
    refine ⟨n, ?_⟩
    rw [hn]
    push_cast
    rw [mul_comm, mul_div_assoc, div_self (ne_of_gt (pow10_pos _)), mul_one]
  · rintro ⟨n, hn⟩
    have : (a.num : ℚ) = n * 10 ^ a.scale := by
      field_simp at hn
      exact_mod_cast hn
    have hz : a.num = n * 10 ^ a.scale := by exact_mod_cast this
    rw [hz]
    exact Int.mul_emod_left _ _

lemma toRat_nonneg (a : Dec) (h : 0 ≤ a.num) : 0 ≤ a.toRat := by
  unfold Dec.toRat
  exact div_nonneg (by exact_mod_cast h) (le_of_lt (pow10_pos _))

lemma beq_iff (a b : Dec) : Dec.beq a b = true ↔ a.toRat = b.toRat := by
  unfold Dec.beq Dec.toRat
  rw [decide_eq_true_iff, div_eq_div_iff (ne_of_gt (pow10_pos _)) (ne_of_gt (pow10_pos _))]
  constructor <;> intro h <;> exact_mod_cast h

end Dec

lemma gesSum_go (c : ℕ) (rows : List (List Cell)) :
    ∀ acc : Dec × ℕ,
      ((rows.foldl (gesStep c) acc).1.toRat
          = acc.1.toRat + ((stationVals rows c).map Dec.toRat).sum) ∧
      (rows.foldl (gesStep c) acc).2 = acc.2 + (stationVals rows c).length := by
  induction rows with
  | nil => intro acc; simp [stationVals]
  | cons r rs ih =>
    intro acc
    rw [List.foldl_cons]
    rcases hp : parse_decimal (r.getD c none) with _ | v
    · have hstep : gesStep c acc r = acc := by
        unfold gesStep
        rw [hp]
      have hsv : stationVals (r :: rs) c = stationVals rs c := by
        unfold stationVals
        rw [List.filterMap_cons, hp]
      rw [hstep, hsv]
      exact ih acc
    · have hstep : gesStep c acc r = (acc.1.add v, acc.2 + 1) := by
        unfold gesStep
        rw [hp]
      have hsv : stationVals (r :: rs) c = v :: stationVals rs c := by
        unfold stationVals
        rw [List.filterMap_cons, hp]
      rw [hstep, hsv]
      refine ⟨?_, ?_⟩
      · rw [(ih _).1]
        simp only [List.map_cons, List.sum_cons, Dec.toRat_add]
        ring
      · rw [(ih _).2]
        simp only [List.length_cons]
        omega

lemma gesSum_spec (rows : List (List Cell)) (c : ℕ) :
    (gesSum rows c).1.toRat = ((stationVals rows c).map Dec.toRat).sum ∧
    (gesSum rows c).2 = (stationVals rows c).length := by
  have h := gesSum_go c rows (⟨0, 0⟩, 0)
  simpa [gesSum, Dec.toRat] using h

lemma candAt_col_idx (g : List (List Cell)) (s : List Cell) (i : ℕ) (cand : Candidate)
    (h : candAt g s i = some cand) : cand.col_idx = i := by
  simp only [candAt] at h
  split at h
  · exact absurd h (by simp)
  · split at h
    · exact absurd h (by simp)
    · split at h
      · exact absurd h (by simp)
      · split at h
        · exact absurd h (by simp)
        · split at h
          · cases h
            rfl
          · exact absurd h (by simp)

lemma mem_candidates_iff (g : List (List Cell)) (s : List Cell) (cand : Candidate) :
    cand ∈ candidates g s ↔
      cand.col_idx ∈ colWindow s ∧ candAt g s cand.col_idx = some cand := by
  unfold candidates
  rw [List.mem_filterMap]
  constructor
  · rintro ⟨i, hi, hc⟩
    have hcol := candAt_col_idx _ _ _ _ hc
    rw [hcol]
    exact ⟨hi, hc⟩
  · rintro ⟨hi, hc⟩
    exact ⟨_, hi, hc⟩

lemma toRat_MIN : MIN_ENERGY.toRat = 1 / 10 := by norm_num [Dec.toRat, MIN_ENERGY]

lemma toRat_MAX : MAX_ENERGY.toRat = 1000 := by norm_num [Dec.toRat, MAX_ENERGY]

lemma toRat_fifty : (Dec.mk 50 0).toRat = 50 := by norm_num [Dec.toRat]

lemma toRat_tol : (Dec.mk 10 1).toRat = 1 := by norm_num [Dec.toRat]

lemma candAt_eq_some_iff (g : List (List Cell)) (s : List Cell) (c : ℕ) :
    (∃ cand, candAt g s c = some cand) ↔
      ((cellRaw (s.getD c none)).head? ≠ some '+' ∧
       (cellRaw (s.getD c none)).head? ≠ some '-' ∧
       ∃ v, parse_decimal (s.getD c none) = some v ∧
         (1 / 10 : ℚ) ≤ |v.toRat| ∧ |v.toRat| ≤ 1000 ∧
         ¬((∃ n : ℤ, v.toRat = (n : ℚ)) ∧ 50 < v.toRat) ∧
         |v.toRat - ((stationVals g c).map Dec.toRat).sum| < 1 ∧
         0 < (stationVals g c).length) := by
  simp only [candAt]
  by_cases hsign : (cellRaw (s.getD c none)).head? = some '+' ∨
      (cellRaw (s.getD c none)).head? = some '-'
  · rw [if_pos hsign]
    constructor
    · rintro ⟨cand, h⟩
      exact absurd h (by simp)
    · rintro ⟨h1, h2, -⟩
      rcases hsign with h | h
      · exact absurd h h1
      · exact absurd h h2
  · rw [if_neg hsign]
    obtain ⟨hp1, hp2⟩ := not_or.1 hsign
    rcases hp : parse_decimal (s.getD c none) with _ | sv
    · simp [hp]
    · simp only []
      have hrangeQ : (Dec.ble MIN_ENERGY sv.dabs = true ∧ Dec.ble sv.dabs MAX_ENERGY = true)
          ↔ ((1 / 10 : ℚ) ≤ |sv.toRat| ∧ |sv.toRat| ≤ 1000) := by
        rw [Dec.ble_iff, Dec.ble_iff, Dec.toRat_dabs, toRat_MIN, toRat_MAX]
      have hintQ : (sv.isIntegral = true ∧ Dec.blt ⟨50, 0⟩ sv = true)
          ↔ ((∃ n : ℤ, sv.toRat = (n : ℚ)) ∧ 50 < sv.toRat) := by
        rw [Dec.isIntegral_iff, Dec.blt_iff, toRat_fifty]
      have hdiffQ : Dec.blt ((sv.sub (gesSum g c).1).dabs) ⟨10, 1⟩ = true
          ↔ |sv.toRat - ((stationVals g c).map Dec.toRat).sum| < 1 := by
        rw [Dec.blt_iff, Dec.toRat_dabs, Dec.toRat_sub, toRat_tol, (gesSum_spec g c).1]
      have hcountQ : 0 < (gesSum g c).2 ↔ 0 < (stationVals g c).length := by
        rw [(gesSum_spec g c).2]
      by_cases hrange : Dec.ble MIN_ENERGY sv.dabs = true ∧ Dec.ble sv.dabs MAX_ENERGY = true
      · rw [if_neg (not_not_intro hrange)]
        by_cases hint : sv.isIntegral = true ∧ Dec.blt ⟨50, 0⟩ sv = true
        · rw [if_pos hint]
          constructor
          · rintro ⟨cand, h⟩
            exact absurd h (by simp)
          · rintro ⟨-, -, v, hv, -, -, hni, -, -⟩
            cases hv
            exact absurd (hintQ.1 hint) hni
        · rw [if_neg hint]
          by_cases hacc : Dec.blt ((sv.sub (gesSum g c).1).dabs) ⟨10, 1⟩ = true ∧
              0 < (gesSum g c).2
          · rw [if_pos hacc]
            constructor
            · rintro ⟨cand, -⟩
              exact ⟨hp1, hp2, sv, rfl, (hrangeQ.1 hrange).1, (hrangeQ.1 hrange).2,
                fun hq => hint (hintQ.2 hq), hdiffQ.1 hacc.1, hcountQ.1 hacc.2⟩
            · rintro -
              exact ⟨_, rfl⟩
          · rw [if_neg hacc]
            constructor
            · rintro ⟨cand, h⟩
              exact absurd h (by simp)
            · rintro ⟨-, -, v, hv, -, -, -, hd, hc0⟩
              cases hv
              exact absurd ⟨hdiffQ.2 hd, hcountQ.2 hc0⟩ hacc
      · rw [if_pos hrange]
        constructor
        · rintro ⟨cand, h⟩
          exact absurd h (by simp)
        · rintro ⟨-, -, v, hv, hr1, hr2, -⟩
          cases hv
          exact absurd (hrangeQ.2 ⟨hr1, hr2⟩) hrange

lemma mem_colWindow_iff (s : List Cell) (c : ℕ) :
    c ∈ colWindow s ↔ 15 ≤ c ∧ c < min 26 s.length := by
  unfold colWindow
  rw [List.mem_range'_1]
  omega

/-- C1: a column index `c` in the bounded window
`15 ≤ c < min(26, len(summary_row))` is accepted as a sum-matching
candidate if and only if the stripped summary cell at `c` does not start
with `'+'` or `'-'`, the cell parses to a decimal `v`, `|v|` lies in
`[0.1, 1000]`, `v` is not an integer strictly greater than `50`, and
`|v - sum|` of the parsed station-row values at `c` is strictly below
the tolerance `1.0` with at least one station row contributing (absent
station cells contribute nothing and do not disqualify). -/
theorem C1_candidate_iff (ges_rows : List (List Cell)) (summary_row : List Cell) (c : ℕ) :
    (∃ cand ∈ candidates ges_rows summary_row, cand.col_idx = c) ↔
      (15 ≤ c ∧ c < min 26 summary_row.length ∧
       (cellRaw (summary_row.getD c none)).head? ≠ some '+' ∧
       (cellRaw (summary_row.getD c none)).head? ≠ some '-' ∧
       ∃ v, parse_decimal (summary_row.getD c none) = some v ∧
         (1 / 10 : ℚ) ≤ |v.toRat| ∧ |v.toRat| ≤ 1000 ∧
         ¬((∃ n : ℤ, v.toRat = (n : ℚ)) ∧ 50 < v.toRat) ∧
         |v.toRat - ((stationVals ges_rows c).map Dec.toRat).sum| < 1 ∧
         0 < (stationVals ges_rows c).length) := by
  constructor
  · rintro ⟨cand, hmem, rfl⟩
    obtain ⟨hw, hca⟩ := (mem_candidates_iff _ _ _).1 hmem
    obtain ⟨h15, hlt⟩ := (mem_colWindow_iff _ _).1 hw
    exact ⟨h15, hlt,
      ((candAt_eq_some_iff ges_rows summary_row cand.col_idx).1 ⟨cand, hca⟩).1,
      ((candAt_eq_some_iff ges_rows summary_row cand.col_idx).1 ⟨cand, hca⟩).2.1,
      ((candAt_eq_some_iff ges_rows summary_row cand.col_idx).1 ⟨cand, hca⟩).2.2⟩
  · rintro ⟨h15, hlt, hplus, hminus, v, hv, hr1, hr2, hni, hd, hc0⟩
    obtain ⟨cand, hca⟩ := (candAt_eq_some_iff ges_rows summary_row c).2
      ⟨hplus, hminus, v, hv, hr1, hr2, hni, hd, hc0⟩
    have hcol := candAt_col_idx _ _ _ _ hca
    refine ⟨cand, (mem_candidates_iff _ _ _).2 ⟨?_, ?_⟩, hcol⟩
    · rw [hcol]
      exact (mem_colWindow_iff _ _).2 ⟨h15, hlt⟩
    · rw [hcol]
      exact hca

/-- C1 witness: the characterization applied at the worked example's
column 18. -/
theorem C1_candidate_iff_witness :
    15 ≤ 18 ∧ 18 < min 26 exSummary.length ∧
    (cellRaw (exSummary.getD 18 none)).head? ≠ some '+' ∧
    (cellRaw (exSummary.getD 18 none)).head? ≠ some '-' ∧
    ∃ v, parse_decimal (exSummary.getD 18 none) = some v ∧
      (1 / 10 : ℚ) ≤ |v.toRat| ∧ |v.toRat| ≤ 1000 ∧
      ¬((∃ n : ℤ, v.toRat = (n : ℚ)) ∧ 50 < v.toRat) ∧
      |v.toRat - ((stationVals exGes 18).map Dec.toRat).sum| < 1 ∧
      0 < (stationVals exGes 18).length :=
  (C1_candidate_iff exGes exSummary 18).1 (by decide)

lemma minByDiff_cons (c x : Candidate) (xs : List Candidate) :
    minByDiff c (x :: xs) = minByDiff (minStep c x) xs := rfl

lemma minByDiff_decomp :
    ∀ (cs : List Candidate) (c : Candidate),
      ∃ l₁ l₂, c :: cs = l₁ ++ minByDiff c cs :: l₂ ∧
        (∀ x ∈ l₁, (minByDiff c cs).difference.toRat < x.difference.toRat) ∧
        (∀ x ∈ l₂, (minByDiff c cs).difference.toRat ≤ x.difference.toRat) := by
  intro cs
  induction cs with
  | nil =>
    intro c
    exact ⟨[], [], rfl, by simp, by simp⟩
  | cons x xs ih =>
    intro c
    rw [minByDiff_cons]
    by_cases hlt : Dec.blt x.difference c.difference = true
    · have hstep : minStep c x = x := by
        unfold minStep
        rw [if_pos hlt]
      rw [hstep]
      obtain ⟨l₁, l₂, hdec, hl₁, hl₂⟩ := ih x
      have hxc : x.difference.toRat < c.difference.toRat := (Dec.blt_iff _ _).1 hlt
      have hrx : (minByDiff x xs).difference.toRat ≤ x.difference.toRat := by
        cases l₁ with
        | nil =>
          have : x = minByDiff x xs := by
            simpa using congrArg (fun l => l.head?) hdec
          rw [← this]
        | cons y l₁' =>
          have hxy : x = y := by
            simpa using congrArg (fun l => l.head?) hdec
          exact le_of_lt (hxy ▸ hl₁ y (List.mem_cons_self _ _))
      refine ⟨c :: l₁, l₂, ?_, ?_, hl₂⟩
      · rw [List.cons_append, ← hdec]
      · intro y hy
        rcases List.mem_cons.1 hy with rfl | hy'
        · exact lt_of_le_of_lt hrx hxc
        · exact hl₁ y hy'
    · have hstep : minStep c x = c := by
        unfold minStep
        rw [if_neg hlt]
      rw [hstep]
      obtain ⟨l₁, l₂, hdec, hl₁, hl₂⟩ := ih c
      have hcx : c.difference.toRat ≤ x.difference.toRat := by
        by_contra hcon
        exact hlt ((Dec.blt_iff _ _).2 (lt_of_not_le hcon))
      cases l₁ with
      | nil =>
        have hrc : minByDiff c xs = c := by
          have := congrArg (fun l => l.head?) hdec
          simpa using this.symm
        have hxs : xs = l₂ := by
          simpa using congrArg (fun l => l.tail) hdec
        refine ⟨[], x :: l₂, ?_, by simp, ?_⟩
        · rw [hrc, List.nil_append, hxs]
        · intro y hy
          rcases List.mem_cons.1 hy with rfl | hy'
          · rw [hrc]
            exact hcx
          · exact hl₂ y hy'
      | cons y l₁' =>
        have hcy : c = y := by
          simpa using congrArg (fun l => l.head?) hdec
        have hxs : xs = l₁' ++ minByDiff c xs :: l₂ := by
          simpa using congrArg (fun l => l.tail) hdec
        have hrc : (minByDiff c xs).difference.toRat < c.difference.toRat :=
          hcy ▸ hl₁ y (List.mem_cons_self _ _)
        refine ⟨c :: x :: l₁', l₂, ?_, ?_, hl₂⟩
        · rw [List.cons_append, List.cons_append, ← hxs]
        · intro z hz
          rcases List.mem_cons.1 hz with rfl | hz'
          · exact hrc
          · rcases List.mem_cons.1 hz' with rfl | hz''
            · exact lt_of_lt_of_le hrc hcx
            · exact hl₁ z (hcy ▸ List.mem_cons_of_mem _ hz'')

lemma toRat_five : (Dec.mk 5 0).toRat = 5 := by norm_num [Dec.toRat]

lemma typicalCandidates_eq (l : List Candidate) :
    typicalCandidates l =
      l.filter (fun x => decide ((5 : ℚ) ≤ x.summary_val.toRat ∧ x.summary_val.toRat ≤ 50)) := by
  unfold typicalCandidates
  apply List.filter_congr
  intro x _
  rw [Bool.decide_and]
  congr 1
  · rw [Bool.eq_iff_iff, Dec.ble_iff, toRat_five, decide_eq_true_iff]
  · rw [Bool.eq_iff_iff, Dec.ble_iff, toRat_fifty, decide_eq_true_iff]

/-- C2: whenever the candidate set is non-empty, the engine returns the
column of the candidate with the smallest summary-versus-sum difference,
restricting first to candidates whose summary value lies in `[5, 50]`
when any exist (otherwise considering all candidates), with ties broken
in favour of the first candidate encountered (decomposition: everything
before the winner is strictly worse, everything after no better); and on
the worked example it selects column 18 over the mismatching column 19. -/
theorem C2_best_candidate_selection :
    (∀ (g : List (List Cell)) (s : List Cell) (c : Candidate) (cs : List Candidate),
      candidates g s = c :: cs →
      ∃ best l₁ l₂,
        find_sum_column g s = some best.col_idx ∧
        (if (c :: cs).filter
              (fun x => decide ((5 : ℚ) ≤ x.summary_val.toRat ∧ x.summary_val.toRat ≤ 50))
            = [] then c :: cs
         else (c :: cs).filter
              (fun x => decide ((5 : ℚ) ≤ x.summary_val.toRat ∧ x.summary_val.toRat ≤ 50)))
          = l₁ ++ best :: l₂ ∧
        (∀ x ∈ l₁, best.difference.toRat < x.difference.toRat) ∧
        (∀ x ∈ l₂, best.difference.toRat ≤ x.difference.toRat)) ∧
    find_sum_column exGes exSummary = some 18 := by
  constructor
  · intro g s c cs hc
    have hfsc : find_sum_column g s =
        (match typicalCandidates (c :: cs) with
         | [] => some (minByDiff c cs).col_idx
         | t :: ts => some (minByDiff t ts).col_idx) := by
      unfold find_sum_column
      rw [hc]
    rcases ht : typicalCandidates (c :: cs) with _ | ⟨t, ts⟩
    · rw [ht] at hfsc
      obtain ⟨l₁, l₂, hdec, hl₁, hl₂⟩ := minByDiff_decomp cs c
      refine ⟨minByDiff c cs, l₁, l₂, hfsc, ?_, hl₁, hl₂⟩
      rw [← typicalCandidates_eq, ht, if_pos rfl]
      exact hdec
    · rw [ht] at hfsc
      obtain ⟨l₁, l₂, hdec, hl₁, hl₂⟩ := minByDiff_decomp ts t
      refine ⟨minByDiff t ts, l₁, l₂, hfsc, ?_, hl₁, hl₂⟩
      rw [← typicalCandidates_eq, ht, if_neg (by simp)]
      exact hdec
  · decide

/-- C2 witness: the selection property applied to the worked example's
concrete candidate list. -/
theorem C2_best_candidate_selection_witness :
    ∃ best l₁ l₂,
      find_sum_column exGes exSummary = some best.col_idx ∧
      (if ([⟨18, ⟨360, 1⟩, ⟨360, 1⟩, ⟨0, 1⟩, 3⟩] : List Candidate).filter
            (fun x => decide ((5 : ℚ) ≤ x.summary_val.toRat ∧ x.summary_val.toRat ≤ 50))
          = [] then ([⟨18, ⟨360, 1⟩, ⟨360, 1⟩, ⟨0, 1⟩, 3⟩] : List Candidate)
       else ([⟨18, ⟨360, 1⟩, ⟨360, 1⟩, ⟨0, 1⟩, 3⟩] : List Candidate).filter
            (fun x => decide ((5 : ℚ) ≤ x.summary_val.toRat ∧ x.summary_val.toRat ≤ 50)))
        = l₁ ++ best :: l₂ ∧
      (∀ x ∈ l₁, best.difference.toRat < x.difference.toRat) ∧
      (∀ x ∈ l₂, best.difference.toRat ≤ x.difference.toRat) :=
  C2_best_candidate_selection.1 exGes exSummary ⟨18, ⟨360, 1⟩, ⟨360, 1⟩, ⟨0, 1⟩, 3⟩ []
    (by decide)

lemma getLast?_cons_or (a : α) (l : List α) : (a :: l).getLast? = l.getLast?.or (some a) := by
  cases l with
  | nil => rfl
  | cons b t =>
    rw [List.getLast?_cons_cons]
    cases h : (b :: t).getLast? with
    | none =>
      have hs : (b :: t).getLast?.isSome := List.getLast?_isSome.2 (by simp)
      rw [h] at hs
      simp at hs
    | some v => rfl

lemma getLast?_append_or (l₁ l₂ : List α) :
    (l₁ ++ l₂).getLast? = l₂.getLast?.or l₁.getLast? := by
  induction l₁ with
  | nil => simp
  | cons a t ih =>
    rw [List.cons_append, getLast?_cons_or, getLast?_cons_or, ih, Option.or_assoc]

lemma mem_of_getLast?_eq (l : List α) (a : α) (h : l.getLast? = some a) : a ∈ l := by
  induction l with
  | nil => exact absurd h (by simp)
  | cons b t ih =>
    rw [getLast?_cons_or] at h
    cases ht : t.getLast? with
    | none =>
      rw [ht] at h
      cases h
      exact List.mem_cons_self _ _
    | some v =>
      rw [ht] at h
      cases h
      exact List.mem_cons_of_mem _ (ih ht)

lemma classifyStep_snd (acc : List (List Cell) × Option (List Cell)) (row : List Cell) :
    (classifyStep acc row).2 = if isSummaryRow row then some row else acc.2 := by
  unfold classifyStep
  by_cases hg : isGesRow row = true <;> by_cases hs : isSummaryRow row = true <;>
    simp [hg, hs]

lemma classify_rows_snd (rows : List (List Cell)) :
    ∀ acc, (rows.foldl classifyStep acc).2
      = ((rows.filter isSummaryRow).getLast?).or acc.2 := by
  induction rows with
  | nil => intro acc; simp
  | cons r rs ih =>
    intro acc
    rw [List.foldl_cons, ih, classifyStep_snd]
    by_cases hs : isSummaryRow r = true
    · rw [if_pos hs, List.filter_cons_of_pos hs, getLast?_cons_or, Option.or_assoc]
      congr 1
    · rw [if_neg hs, List.filter_cons_of_neg (by simpa using hs)]

lemma classify_tables_snd (tables : List (List (List Cell))) :
    ∀ acc : List (List Cell) × Option (List Cell),
      (tables.foldl (fun acc table => table.foldl classifyStep acc) acc).2
        = (((tables.flatten).filter isSummaryRow).getLast?).or acc.2 := by
  induction tables with
  | nil => intro acc; simp
  | cons t ts ih =>
    intro acc
    rw [List.foldl_cons, ih, classify_rows_snd, List.flatten_cons, List.filter_append,
      getLast?_append_or, Option.or_assoc]

lemma classifyRows_snd (tables : List (List (List Cell))) :
    (classifyRows tables).2 = ((tables.flatten).filter isSummaryRow).getLast? := by
  unfold classifyRows
  rw [classify_tables_snd]
  simp

/-- C3 (amended): the classifier keeps the LAST row, in table order then
row order, whose first cell contains all three marker substrings (later
matches overwrite earlier ones), and `_find_total_energy` raises
`DataExtractionError` exactly when no row matches. -/
theorem C3_amended_summary_row_selection :
    (∀ tables : List (List (List Cell)),
      (classifyRows tables).2 = ((tables.flatten).filter isSummaryRow).getLast?) ∧
    (∀ tables : List (List (List Cell)),
      (tables.flatten).filter isSummaryRow = [] →
      find_total_energy tables = .error .summaryRowNotFound) := by
  constructor
  · exact classifyRows_snd
  · intro tables h
    simp only [find_total_energy]
    rw [classifyRows_snd, h]
    rfl

/-- C3 witness: a table set with no keyword row makes the parse fail. -/
theorem C3_amended_summary_row_selection_witness :
    ([[[someStr "Чорбоғ ГЭС", someStr "5.0"]]].flatten.filter isSummaryRow
       = ([] : List (List Cell))) ∧
    find_total_energy [[[someStr "Чорбоғ ГЭС", someStr "5.0"]]]
      = .error .summaryRowNotFound :=
  ⟨by decide, C3_amended_summary_row_selection.2 _ (by decide)⟩

/-- C3 counterexample: with two keyword-bearing rows the classifier
keeps the SECOND (last) one, not the first, and the extracted total
comes from it. -/
theorem C3_counterexample_last_match_wins :
    isSummaryRow rowU1 = true ∧ isSummaryRow rowU2 = true ∧ rowU1 ≠ rowU2 ∧
    (classifyRows [[rowU1, rowU2]]).2 = some rowU2 ∧
    find_total_energy [[rowU1, rowU2]] = .ok ⟨300, 1⟩ := by decide

lemma toRat_centi : (Dec.mk 1 2).toRat = 1 / 100 := by norm_num [Dec.toRat]

lemma toRat_thousand : (Dec.mk 1000 0).toRat = 1000 := by norm_num [Dec.toRat]

lemma toRat_ten : (Dec.mk 10 0).toRat = 10 := by norm_num [Dec.toRat]

lemma toRat_twohundred : (Dec.mk 200 0).toRat = 200 := by norm_num [Dec.toRat]

lemma tightWindow_iff (v : Dec) :
    tightWindow v ↔ ((10 : ℚ) ≤ |v.toRat| ∧ |v.toRat| ≤ 200) := by
  unfold tightWindow
  rw [Dec.ble_iff, Dec.ble_iff, Dec.toRat_dabs, toRat_ten, toRat_twohundred]

lemma fallbackHit_eq_none_of (c : Cell)
    (h : ¬ tightWindow ((parse_decimal c).getD ⟨0, 0⟩)) : fallbackHit c = none := by
  unfold fallbackHit
  cases hp : parse_decimal c with
  | none => rfl
  | some v =>
    rw [hp] at h
    simp only [Option.getD_some] at h
    unfold tightWindow at h
    show (if Dec.ble ⟨1, 2⟩ v.dabs = true ∧ Dec.ble v.dabs ⟨1000, 0⟩ = true then
            (if Dec.ble ⟨10, 0⟩ v.dabs = true ∧ Dec.ble v.dabs ⟨200, 0⟩ = true then some v
             else none)
          else none) = none
    by_cases ho : Dec.ble ⟨1, 2⟩ v.dabs = true ∧ Dec.ble v.dabs ⟨1000, 0⟩ = true
    · rw [if_pos ho, if_neg h]
    · rw [if_neg ho]

lemma fallbackHit_eq_some_of (c : Cell) (v : Dec)
    (hp : parse_decimal c = some v) (hw : tightWindow v) : fallbackHit c = some v := by
  have h10 := (tightWindow_iff v).1 hw
  unfold tightWindow at hw
  unfold fallbackHit
  rw [hp]
  have houter : Dec.ble ⟨1, 2⟩ v.dabs = true ∧ Dec.ble v.dabs ⟨1000, 0⟩ = true := by
    constructor
    · rw [Dec.ble_iff, toRat_centi, Dec.toRat_dabs]
      linarith [h10.1]
    · rw [Dec.ble_iff, Dec.toRat_dabs, toRat_thousand]
      linarith [h10.2]
  show (if Dec.ble ⟨1, 2⟩ v.dabs = true ∧ Dec.ble v.dabs ⟨1000, 0⟩ = true then
          (if Dec.ble ⟨10, 0⟩ v.dabs = true ∧ Dec.ble v.dabs ⟨200, 0⟩ = true then some v
           else none)
        else none) = some v
  rw [if_pos houter, if_pos hw]

/-- C4: (i) the tight typical-daily-total window used by the fallback is
`[10, 200]` in magnitude; (ii) when column inference finds no column, or
the chosen summary cell fails to parse, `_find_total_energy` falls back
to the left-to-right row scan; (iii) the scan returns the value of the
first cell parsing into the tight window; (iv) when no cell qualifies it
raises `DataExtractionError` carrying the raw row contents. -/
theorem C4_fallback_row_scan :
    (∀ v : Dec, tightWindow v ↔ ((10 : ℚ) ≤ |v.toRat| ∧ |v.toRat| ≤ 200)) ∧
    (∀ (tables : List (List (List Cell))) (ges : List (List Cell)) (summary : List Cell),
      classifyRows tables = (ges, some summary) →
      (find_sum_column ges summary).all
          (fun c => (parse_decimal (summary.getD c none)).isNone) = true →
      find_total_energy tables = extract_energy_from_row summary) ∧
    (∀ (l₁ : List Cell) (cell : Cell) (l₂ : List Cell) (v : Dec),
      parse_decimal cell = some v → tightWindow v →
      (∀ c' ∈ l₁, ¬ tightWindow ((parse_decimal c').getD ⟨0, 0⟩)) →
      extract_energy_from_row (l₁ ++ cell :: l₂) = .ok v) ∧
    (∀ row : List Cell,
      (∀ c ∈ row, ¬ tightWindow ((parse_decimal c).getD ⟨0, 0⟩)) →
      extract_energy_from_row row = .error (.noEnergyInRow row)) := by
  refine ⟨tightWindow_iff, ?_, ?_, ?_⟩
  · intro tables ges summary hclass hall
    have hstep : find_total_energy tables =
        (match find_sum_column ges summary with
         | some target_col_idx =>
           (match parse_decimal (summary.getD target_col_idx none) with
            | some val => Except.ok val
            | none => extract_energy_from_row summary)
         | none => extract_energy_from_row summary) := by
      simp only [find_total_energy]
      rw [hclass]
    rw [hstep]
    rcases hf : find_sum_column ges summary with _ | c
    · rfl
    · rw [hf] at hall
      simp only [Option.all_some] at hall
      have hpn : parse_decimal (summary.getD c none) = none := by
        simpa [Option.isNone_iff_eq_none] using hall
      show (match parse_decimal (summary.getD c none) with
            | some val => Except.ok val
            | none => extract_energy_from_row summary) = extract_energy_from_row summary
      rw [hpn]
  · intro l₁ cell l₂ v hp hw hnone
    unfold extract_energy_from_row
    rw [List.findSome?_append]
    have h1 : l₁.findSome? fallbackHit = none :=
      List.findSome?_eq_none_iff.2 (fun c hc => fallbackHit_eq_none_of c (hnone c hc))
    rw [h1, List.findSome?_cons, fallbackHit_eq_some_of cell v hp hw]
    rfl
  · intro row hnone
    unfold extract_energy_from_row
    have h1 : row.findSome? fallbackHit = none :=
      List.findSome?_eq_none_iff.2 (fun c hc => fallbackHit_eq_none_of c (hnone c hc))
    rw [h1]

/-- C4 witness: the fallback branches exercised on concrete rows. -/
theorem C4_fallback_row_scan_witness :
    (find_total_energy [[rowU1]] = extract_energy_from_row rowU1) ∧
    (extract_energy_from_row
        ([someStr "Ўзбекгидроэнерго АЖ бўйича"] ++ someStr "81,03" :: [])
      = .ok ⟨8103, 2⟩) ∧
    (extract_energy_from_row [someStr "abc"]
      = .error (.noEnergyInRow [someStr "abc"])) :=
  ⟨C4_fallback_row_scan.2.1 [[rowU1]] [] rowU1 (by decide) (by decide),
   C4_fallback_row_scan.2.2.1 [someStr "Ўзбекгидроэнерго АЖ бўйича"] (someStr "81,03") []
     ⟨8103, 2⟩ (by decide) (by decide) (by decide),
   C4_fallback_row_scan.2.2.2 [someStr "abc"] (by decide)⟩

lemma mem_candidates_of_find_sum_column (g : List (List Cell)) (s : List Cell) (t : ℕ)
    (h : find_sum_column g s = some t) :
    ∃ cand ∈ candidates g s, cand.col_idx = t := by
  unfold find_sum_column at h
  rcases hc : candidates g s with _ | ⟨c, cs⟩ <;> rw [hc] at h
  · cases h
  · have h' : (match typicalCandidates (c :: cs) with
        | [] => some (minByDiff c cs).col_idx
        | t :: ts => some (minByDiff t ts).col_idx) = some t := h
    rcases ht : typicalCandidates (c :: cs) with _ | ⟨tt, ts⟩ <;> rw [ht] at h'
    · obtain ⟨l₁, l₂, hdec, -, -⟩ := minByDiff_decomp cs c
      refine ⟨minByDiff c cs, ?_, by injection h'⟩
      rw [hdec]
      exact List.mem_append.2 (Or.inr (List.mem_cons_self _ _))
    · obtain ⟨l₁, l₂, hdec, -, -⟩ := minByDiff_decomp ts tt
      refine ⟨minByDiff tt ts, ?_, by injection h'⟩
      have hmemt : minByDiff tt ts ∈ typicalCandidates (c :: cs) := by
        rw [ht, hdec]
        exact List.mem_append.2 (Or.inr (List.mem_cons_self _ _))
      have := List.mem_filter.1 (typicalCandidates_eq (c :: cs) ▸ hmemt)
      exact this.1

lemma find_sum_column_lt (g : List (List Cell)) (s : List Cell) (t : ℕ)
    (h : find_sum_column g s = some t) : t < s.length := by
  obtain ⟨cand, hmem, hcol⟩ := mem_candidates_of_find_sum_column g s t h
  have hw := ((mem_candidates_iff g s cand).1 hmem).1
  have := (mem_colWindow_iff s cand.col_idx).1 hw
  omega

lemma parse_of_fallbackHit (c : Cell) (v : Dec) (h : fallbackHit c = some v) :
    parse_decimal c = some v := by
  unfold fallbackHit at h
  cases hp : parse_decimal c with
  | none =>
    rw [hp] at h
    cases h
  | some w =>
    rw [hp] at h
    have h' : (if Dec.ble ⟨1, 2⟩ w.dabs = true ∧ Dec.ble w.dabs ⟨1000, 0⟩ = true then
                 (if Dec.ble ⟨10, 0⟩ w.dabs = true ∧ Dec.ble w.dabs ⟨200, 0⟩ = true then some w
                  else none)
               else none) = some v := h
    split at h'
    · split at h'
      · cases h'
        rfl
      · cases h'
    · cases h'

lemma extract_energy_parse (row : List Cell) (q : Dec)
    (h : extract_energy_from_row row = .ok q) : ∃ cell ∈ row, parse_decimal cell = some q := by
  unfold extract_energy_from_row at h
  cases hf : row.findSome? fallbackHit with
  | none =>
    rw [hf] at h
    cases h
  | some v =>
    rw [hf] at h
    cases h
    obtain ⟨cell, hc, hhit⟩ := List.exists_of_findSome?_eq_some hf
    exact ⟨cell, hc, parse_of_fallbackHit _ _ hhit⟩

lemma getD_mem_of_lt (l : List Cell) (i : ℕ) (h : i < l.length) : l.getD i none ∈ l := by
  rw [List.getD_eq_getElem?_getD, List.getElem?_eq_getElem h]
  simp

/-- C7 (amended): every extracted total is an exact decimal, and it is
non-negative PROVIDED every parsable cell of the table set parses to a
non-negative value; unconditionally the claim fails, because the
fallback scan checks only `abs(val)` and the sum-column re-parse can
pick up an embedded minus sign, so a negative cell value is returned
as-is (see the counterexample). -/
theorem C7_amended_total_nonneg (tables : List (List (List Cell))) (q : Dec)
    (hpos : ∀ row ∈ tables.flatten, ∀ cell ∈ row, 0 ≤ ((parse_decimal cell).getD ⟨0, 0⟩).num)
    (hok : find_total_energy tables = .ok q) : 0 ≤ q.toRat := by
  rcases hsum : (classifyRows tables).2 with _ | summary
  · have herr : find_total_energy tables = .error .summaryRowNotFound := by
      simp only [find_total_energy]
      rw [hsum]
    rw [herr] at hok
    cases hok
  · have hmem : summary ∈ tables.flatten := by
      have h1 := classifyRows_snd tables
      rw [hsum] at h1
      exact (List.mem_filter.1 (mem_of_getLast?_eq _ _ h1.symm)).1
    have hstep : find_total_energy tables =
        (match find_sum_column (classifyRows tables).1 summary with
         | some t =>
           (match parse_decimal (summary.getD t none) with
            | some val => Except.ok val
            | none => extract_energy_from_row summary)
         | none => extract_energy_from_row summary) := by
      simp only [find_total_energy]
      rw [hsum]
    rw [hstep] at hok
    have hfall : extract_energy_from_row summary = Except.ok q → 0 ≤ q.toRat := by
      intro hex
      obtain ⟨cell, hcell, hpq⟩ := extract_energy_parse summary q hex
      have := hpos summary hmem cell hcell
      rw [hpq] at this
      simp only [Option.getD_some] at this
      exact Dec.toRat_nonneg q this
    rcases hf : find_sum_column (classifyRows tables).1 summary with _ | t
    · rw [hf] at hok
      exact hfall hok
    · rw [hf] at hok
      have hok' : (match parse_decimal (summary.getD t none) with
          | some val => Except.ok val
          | none => extract_energy_from_row summary) = Except.ok q := hok
      rcases hp : parse_decimal (summary.getD t none) with _ | val
      · rw [hp] at hok'
        exact hfall hok'
      · rw [hp] at hok'
        cases hok'
        have hb : t < summary.length := find_sum_column_lt _ _ _ hf
        have := hpos summary hmem _ (getD_mem_of_lt summary t hb)
        rw [hp] at this
        simp only [Option.getD_some] at this
        exact Dec.toRat_nonneg _ this

/-- C7 witness: the worked table set has only non-negative cells and its
extracted total `36.0` is non-negative. -/
theorem C7_amended_total_nonneg_witness :
    (∀ row ∈ exTables.flatten, ∀ cell ∈ row, 0 ≤ ((parse_decimal cell).getD ⟨0, 0⟩).num) ∧
    0 ≤ (Dec.mk 360 1).toRat :=
  ⟨by decide, C7_amended_total_nonneg exTables ⟨360, 1⟩ (by decide) (by decide)⟩

/-- C7 counterexample: a summary row holding `"-50"` makes the fallback
return the negative total `-50`, refuting unconditional non-negativity. -/
theorem C7_counterexample_negative_total :
    find_total_energy negTables = .ok ⟨-50, 0⟩ ∧ (Dec.mk (-50) 0).toRat < 0 := by
  constructor
  · decide
  · norm_num [Dec.toRat]

lemma parse_decimal_eq_body (v : Cell) :
    parse_decimal v = (match parse_decimal_body v with
                       | .ok r => r
                       | .error _ => none) := by
  cases v with
  | none => rfl
  | some s =>
    simp only [parse_decimal, parse_decimal_body]
    split
    · rfl
    · split
      · rfl
      · split <;> rfl

/-- C8: the Decimal Cell Parser is total and never raises: for every
input (including `None` and arbitrary strings) it returns exactly what
the uncaught body would return on success, and silently `none` wherever
the body would raise (`Decimal` constructor failure). -/
theorem C8_parse_decimal_never_raises (v : Cell) :
    (∀ e : Unit, parse_decimal_body v = .error e → parse_decimal v = none) ∧
    (∀ r : Option Dec, parse_decimal_body v = .ok r → parse_decimal v = r) := by
  constructor
  · intro e he
    rw [parse_decimal_eq_body, he]
  · intro r hr
    rw [parse_decimal_eq_body, hr]

/-- C8 witness: a cell whose cleaned text `"1-2"` makes the Decimal
constructor raise is mapped silently to absent, and an ordinary cell's
value passes through. -/
theorem C8_parse_decimal_never_raises_witness :
    parse_decimal (someStr "1-2") = none ∧
    parse_decimal (someStr "81,03") = some ⟨8103, 2⟩ :=
  ⟨(C8_parse_decimal_never_raises (someStr "1-2")).1 () (by decide),
   (C8_parse_decimal_never_raises (someStr "81,03")).2 (some ⟨8103, 2⟩) (by decide)⟩

lemma retryAux_calls_le {E T : Type} (b maxd : ℚ) :
    ∀ (l : List (Except E T)) (a : ℕ), (retryAux b maxd l a).calls ≤ l.length := by
  intro l
  induction l with
  | nil => intro a; simp [retryAux]
  | cons x xs ih =>
    intro a
    cases x with
    | ok t => simp [retryAux]
    | error e =>
      by_cases hxs : xs.isEmpty
      · simp [retryAux, hxs]
      · simp only [retryAux, hxs, Bool.false_eq_true, if_false, List.length_cons]
        have := ih (a + 1)
        omega

lemma retryAux_first_ok {E T : Type} (b maxd : ℚ) (t : T) (rest : List (Except E T)) :
    ∀ (errs : List (Except E T)) (a : ℕ), (∀ x ∈ errs, isFailure x = true) →
      retryAux b maxd (errs ++ .ok t :: rest) a =
        ⟨.ok t, errs.length + 1,
         (List.range errs.length).map (fun i => min (b ^ (a + i)) maxd)⟩ := by
  intro errs
  induction errs with
  | nil =>
    intro a _
    simp [retryAux]
  | cons x xs ih =>
    intro a hall
    have hx : isFailure x = true := hall x (List.mem_cons_self _ _)
    cases x with
    | ok u => exact absurd hx (by simp [isFailure])
    | error e =>
      have hne : (xs ++ Except.ok t :: rest).isEmpty = false := by
        cases xs <;> rfl
      rw [List.cons_append]
      simp only [retryAux, hne, Bool.false_eq_true, if_false]
      rw [ih (a + 1) (fun y hy => hall y (List.mem_cons_of_mem _ hy))]
      rw [RetryTrace.mk.injEq]
      refine ⟨rfl, by simp, ?_⟩
      rw [List.length_cons, List.range_succ_eq_map, List.map_cons, List.map_map]
      congr 1
      dsimp only
      apply List.map_congr_left
      intro i _
      simp only [Function.comp_apply]
      have hexp : a + 1 + i = a + (i + 1) := by omega
      rw [hexp]

lemma retryAux_all_err {E T : Type} (b maxd : ℚ) (e : E) :
    ∀ (errs : List (Except E T)) (a : ℕ), (∀ x ∈ errs, isFailure x = true) →
      retryAux b maxd (errs ++ [.error e]) a =
        ⟨.error (.raised e), errs.length + 1,
         (List.range errs.length).map (fun i => min (b ^ (a + i)) maxd)⟩ := by
  intro errs
  induction errs with
  | nil =>
    intro a _
    simp [retryAux]
  | cons x xs ih =>
    intro a hall
    have hx : isFailure x = true := hall x (List.mem_cons_self _ _)
    cases x with
    | ok u => exact absurd hx (by simp [isFailure])
    | error e' =>
      have hne : (xs ++ [Except.error e] : List (Except E T)).isEmpty = false := by
        cases xs <;> rfl
      rw [List.cons_append]
      simp only [retryAux, hne, Bool.false_eq_true, if_false]
      rw [ih (a + 1) (fun y hy => hall y (List.mem_cons_of_mem _ hy))]
      rw [RetryTrace.mk.injEq]
      refine ⟨rfl, by simp, ?_⟩
      rw [List.length_cons, List.range_succ_eq_map, List.map_cons, List.map_map]
      congr 1
      dsimp only
      apply List.map_congr_left
      intro i _
      simp only [Function.comp_apply]
      have hexp : a + 1 + i = a + (i + 1) := by omega
      rw [hexp]

/-- C9: for `max_attempts ≥ 1` the retrier invokes the operation at most
`max_attempts` times; if the first success is at attempt `k` it returns
that result after exactly `k` calls, sleeping `min(backoff^attempt,
max_delay)` after each of the `k - 1` preceding failures and nothing
more; if every attempt fails it re-raises the last failure unchanged
after `max_attempts` calls. -/
theorem C9_retry_contract {E T : Type} (results : ℕ → Except E T) (max_attempts : ℤ)
    (b maxd : ℚ) (hmax : 1 ≤ max_attempts) :
    ((retry_with_backoff results max_attempts b maxd).calls ≤ max_attempts.toNat) ∧
    (∀ (k : ℕ) (t : T), 1 ≤ k → k ≤ max_attempts.toNat → results k = .ok t →
      (∀ j, j < k → 1 ≤ j → isFailure (results j) = true) →
      retry_with_backoff results max_attempts b maxd =
        ⟨.ok t, k, (List.range (k - 1)).map (fun i => min (b ^ (1 + i)) maxd)⟩) ∧
    ((∀ j, j ≤ max_attempts.toNat → 1 ≤ j → isFailure (results j) = true) →
      ∃ e, results max_attempts.toNat = .error e ∧
        retry_with_backoff results max_attempts b maxd =
          ⟨.error (.raised e), max_attempts.toNat,
           (List.range (max_attempts.toNat - 1)).map (fun i => min (b ^ (1 + i)) maxd)⟩) := by
  have hn : 1 ≤ max_attempts.toNat := by omega
  refine ⟨?_, ?_, ?_⟩
  · unfold retry_with_backoff
    have := retryAux_calls_le b maxd
      ((List.range max_attempts.toNat).map (fun i => results (i + 1))) 1
    simpa using this
  · intro k t hk1 hkn hres hfails
    unfold retry_with_backoff
    have hL : (List.range max_attempts.toNat).map (fun i => results (i + 1)) =
        ((List.range (k - 1)).map (fun i => results (i + 1))) ++
          Except.ok t ::
            ((List.range (max_attempts.toNat - k)).map (fun i => results (k + i + 1))) := by
      conv_lhs => rw [show max_attempts.toNat = (k - 1) + ((max_attempts.toNat - k) + 1)
        by omega]
      rw [List.range_add, List.map_append]
      congr 1
      rw [List.range_succ_eq_map, List.map_cons, List.map_map, List.map_cons, List.map_map]
      congr 1
      · rw [show k - 1 + 0 + 1 = k by omega, hres]
      · apply List.map_congr_left
        intro i _
        simp only [Function.comp_apply]
        congr 1
        omega
    rw [hL, retryAux_first_ok]
    · rw [RetryTrace.mk.injEq]
      refine ⟨rfl, ?_, ?_⟩
      · simp only [List.length_map, List.length_range]
        omega
      · simp only [List.length_map, List.length_range]
    · intro x hx
      obtain ⟨i, hi, rfl⟩ := List.mem_map.1 hx
      have hi' : i < k - 1 := List.mem_range.1 hi
      exact hfails (i + 1) (by omega) (by omega)
  · intro hfails
    have hlast : isFailure (results max_attempts.toNat) = true :=
      hfails _ (le_refl _) hn
    cases hres : results max_attempts.toNat with
    | ok t =>
      rw [hres] at hlast
      exact absurd hlast (by simp [isFailure])
    | error e =>
      refine ⟨e, rfl, ?_⟩
      unfold retry_with_backoff
      have h1 : List.range max_attempts.toNat
          = List.range (max_attempts.toNat - 1) ++ [max_attempts.toNat - 1] := by
        conv_lhs => rw [show max_attempts.toNat = (max_attempts.toNat - 1) + 1 by omega]
        rw [List.range_succ]
      have hL : (List.range max_attempts.toNat).map (fun i => results (i + 1)) =
          ((List.range (max_attempts.toNat - 1)).map (fun i => results (i + 1))) ++
            [Except.error e] := by
        rw [h1, List.map_append]
        congr 1
        simp only [List.map_cons, List.map_nil]
        rw [show max_attempts.toNat - 1 + 1 = max_attempts.toNat by omega, hres]
      rw [hL, retryAux_all_err]
      · rw [RetryTrace.mk.injEq]
        refine ⟨rfl, ?_, ?_⟩
        · simp only [List.length_map, List.length_range]
          omega
        · simp only [List.length_map, List.length_range]
      · intro x hx
        obtain ⟨i, hi, rfl⟩ := List.mem_map.1 hx
        have hi' : i < max_attempts.toNat - 1 := List.mem_range.1 hi
        exact hfails (i + 1) (by omega) (by omega)

/-- C9 witness: an operation failing on attempts 1–2 and succeeding on
attempt 3 (within `max_attempts = 3`) returns the attempt-3 result after
two capped sleeps, and an operation failing on every attempt re-raises
the last failure. -/
theorem C9_retry_contract_witness :
    (retry_with_backoff (fun k => if k < 3 then .error () else .ok 42) 3 2 10 =
      ⟨.ok 42, 3, (List.range (3 - 1)).map (fun i => min ((2 : ℚ) ^ (1 + i)) 10)⟩) ∧
    (∃ e : Unit, (fun _ : ℕ => (Except.error () : Except Unit ℕ)) ((3 : ℤ)).toNat = .error e ∧
      retry_with_backoff (fun _ : ℕ => (Except.error () : Except Unit ℕ)) 3 2 10 =
        ⟨.error (.raised e), ((3 : ℤ)).toNat,
         (List.range (((3 : ℤ)).toNat - 1)).map (fun i => min ((2 : ℚ) ^ (1 + i)) 10)⟩) :=
  ⟨(C9_retry_contract (fun k => if k < 3 then .error () else .ok 42) 3 2 10
      (by decide)).2.1 3 42 (by decide) (by decide) (by decide) (by decide),
   (C9_retry_contract (fun _ : ℕ => (Except.error () : Except Unit ℕ)) 3 2 10
      (by decide)).2.2 (by decide)⟩

/-- C10: for `max_attempts < 1` the attempt loop body never runs: the
wrapped operation is never invoked (zero calls, zero sleeps) and the
call raises the defensive `RuntimeError`. -/
theorem C10_retry_no_attempts {E T : Type} (results : ℕ → Except E T) (max_attempts : ℤ)
    (b maxd : ℚ) (hmax : max_attempts < 1) :
    retry_with_backoff results max_attempts b maxd = ⟨.error .runtimeError, 0, []⟩ := by
  have h0 : max_attempts.toNat = 0 := by omega
  unfold retry_with_backoff
  rw [h0]
  rfl

/-- C10 witness: with `max_attempts = 0` an always-succeeding operation
is still never called and `RuntimeError` is raised. -/
theorem C10_retry_no_attempts_witness :
    retry_with_backoff (fun _ : ℕ => (Except.ok 7 : Except Unit ℕ)) 0 2 10 =
      ⟨.error .runtimeError, 0, []⟩ :=
  C10_retry_no_attempts (fun _ : ℕ => (Except.ok 7 : Except Unit ℕ)) 0 2 10 (by decide)

lemma digit_ne_hyphen {c : Char} (h : c.isDigit = true) : c ≠ '-' := by
  intro hc
  rw [hc] at h
  exact absurd h (by decide)

lemma digit_ne_dot {c : Char} (h : c.isDigit = true) : c ≠ '.' := by
  intro hc
  rw [hc] at h
  exact absurd h (by decide)

lemma digit_ne_comma {c : Char} (h : c.isDigit = true) : c ≠ ',' := by
  intro hc
  rw [hc] at h
  exact absurd h (by decide)

lemma ws_not_keep {c : Char} (h : c.isWhitespace = true) :
    keepChar (if c = ',' then '.' else c) = false := by
  have hc : ((c = ' ' ∨ c = '\t') ∨ c = '\x0d') ∨ c = '\n' := by
    simpa [Char.isWhitespace] using h
  rcases hc with ((rfl | rfl) | rfl) | rfl <;> decide

lemma cleanChars_append (a b : Str) :
    cleanChars (a ++ b) = cleanChars a ++ cleanChars b := by
  unfold cleanChars
  rw [List.map_append, List.filter_append]

lemma cleanChars_reverse (l : Str) : cleanChars l.reverse = (cleanChars l).reverse := by
  unfold cleanChars
  rw [List.map_reverse, List.filter_reverse]

lemma cleanChars_nil_of_ws (l : Str) (h : ∀ c ∈ l, c.isWhitespace = true) :
    cleanChars l = [] := by
  unfold cleanChars
  rw [List.filter_eq_nil_iff]
  intro a ha
  obtain ⟨c, hc, rfl⟩ := List.mem_map.1 ha
  rw [ws_not_keep (h c hc)]
  simp

lemma cleanChars_dropWhile_ws (s : Str) :
    cleanChars (s.dropWhile Char.isWhitespace) = cleanChars s := by
  conv_rhs => rw [← List.takeWhile_append_dropWhile Char.isWhitespace s]
  rw [cleanChars_append,
    cleanChars_nil_of_ws _ (fun c hc => List.mem_takeWhile_imp hc), List.nil_append]

lemma cleanChars_strip (s : Str) : cleanChars (pyStrip s) = cleanChars s := by
  unfold pyStrip
  rw [cleanChars_reverse, cleanChars_dropWhile_ws, cleanChars_reverse, List.reverse_reverse,
    cleanChars_dropWhile_ws]

lemma cleanChars_noise (l : Str) (h : ∀ c ∈ l, noiseChar c = true) : cleanChars l = [] := by
  unfold cleanChars
  rw [List.filter_eq_nil_iff]
  intro a ha
  obtain ⟨c, hc, rfl⟩ := List.mem_map.1 ha
  have hn := h c hc
  unfold noiseChar at hn
  simp only [Bool.not_eq_true', Bool.or_eq_false_iff, decide_eq_false_iff_not] at hn
  obtain ⟨⟨⟨hd, hdot⟩, hcomma⟩, hminus⟩ := hn
  rw [if_neg hcomma]
  unfold keepChar
  simp [hd, hdot, hminus]

lemma cleanChars_digits (l : Str) (h : ∀ c ∈ l, c.isDigit = true) : cleanChars l = l := by
  induction l with
  | nil => rfl
  | cons c cs ih =>
    have hc := h c (List.mem_cons_self _ _)
    have hrest := ih (fun x hx => h x (List.mem_cons_of_mem _ hx))
    unfold cleanChars at hrest ⊢
    rw [List.map_cons, if_neg (digit_ne_comma hc),
      List.filter_cons_of_pos (by unfold keepChar; simp [hc]), hrest]

lemma digitsVal_go (cs : Str) :
    ∀ a : ℕ, cs.foldl (fun a c => 10 * a + (c.toNat - 48)) a
      = a * 10 ^ cs.length + digitsVal cs := by
  induction cs with
  | nil => intro a; simp [digitsVal]
  | cons c cs ih =>
    intro a
    rw [List.foldl_cons]
    rw [ih (10 * a + (c.toNat - 48))]
    have hd : digitsVal (c :: cs) = (c.toNat - 48) * 10 ^ cs.length + digitsVal cs := by
      show (c :: cs).foldl (fun a c => 10 * a + (c.toNat - 48)) 0
          = (c.toNat - 48) * 10 ^ cs.length + digitsVal cs
      rw [List.foldl_cons, ih (10 * 0 + (c.toNat - 48))]
      ring_nf
    rw [hd, List.length_cons]
    ring

lemma digitsVal_append (a b : Str) :
    digitsVal (a ++ b) = digitsVal a * 10 ^ b.length + digitsVal b := by
  unfold digitsVal
  rw [List.foldl_append]
  exact digitsVal_go b _

lemma takeWhile_digits_dot (d1 d2 : Str) (h : ∀ c ∈ d1, c.isDigit = true) :
    (d1 ++ '.' :: d2).takeWhile (fun c => c ≠ '.') = d1 := by
  induction d1 with
  | nil => simp
  | cons c cs ih =>
    rw [List.cons_append, List.takeWhile_cons,
      if_pos (by simpa using digit_ne_dot (h c (List.mem_cons_self _ _))),
      ih (fun x hx => h x (List.mem_cons_of_mem _ hx))]

lemma dropWhile_digits_dot (d1 d2 : Str) (h : ∀ c ∈ d1, c.isDigit = true) :
    (d1 ++ '.' :: d2).dropWhile (fun c => c ≠ '.') = '.' :: d2 := by
  induction d1 with
  | nil => simp
  | cons c cs ih =>
    rw [List.cons_append, List.dropWhile_cons,
      if_pos (by simpa using digit_ne_dot (h c (List.mem_cons_self _ _))),
      ih (fun x hx => h x (List.mem_cons_of_mem _ hx))]

lemma decimalOfChars_body (d1 d2 : Str) (hd1 : ∀ c ∈ d1, c.isDigit = true)
    (hd2 : ∀ c ∈ d2, c.isDigit = true) :
    (((d1 ++ '.' :: d2).any (fun c => !(c.isDigit || c = '.'))) = false) ∧
    ((d1 ++ '.' :: d2).count '.' = 1) := by
  constructor
  · rw [List.any_eq_false]
    intro c hc
    rcases List.mem_append.1 hc with hc1 | hc2
    · simp [hd1 c hc1]
    · rcases List.mem_cons.1 hc2 with rfl | hc3
      · simp
      · simp [hd2 c hc3]
  · rw [List.count_append, List.count_cons]
    have h1 : d1.count '.' = 0 := List.count_eq_zero.2 (fun hmem => digit_ne_dot (hd1 _ hmem) rfl)
    have h2 : d2.count '.' = 0 := List.count_eq_zero.2 (fun hmem => digit_ne_dot (hd2 _ hmem) rfl)
    simp [h1, h2]

lemma decimalOfChars_unsigned (d1 d2 : Str) (hd1 : ∀ c ∈ d1, c.isDigit = true)
    (hd2 : ∀ c ∈ d2, c.isDigit = true) (hne : d1 ≠ []) :
    decimalOfChars (d1 ++ '.' :: d2) = some ⟨(digitsVal (d1 ++ d2) : ℤ), d2.length⟩ := by
  obtain ⟨c0, d1', rfl⟩ := List.exists_cons_of_ne_nil hne
  have hc0 := hd1 c0 (List.mem_cons_self _ _)
  have hsigned : (decide (((c0 :: d1') ++ '.' :: d2 : Str).head? = some '-')) = false := by
    rw [List.cons_append, List.head?_cons]
    exact decide_eq_false (by simp [digit_ne_hyphen hc0])
  obtain ⟨hany, hcount⟩ := decimalOfChars_body (c0 :: d1') d2 hd1 hd2
  simp only [decimalOfChars, hsigned, Bool.false_eq_true, if_false]
  rw [if_neg (by rw [hany]; simp), if_neg (by rw [hcount]; omega),
    takeWhile_digits_dot _ _ hd1, dropWhile_digits_dot _ _ hd1, List.tail_cons,
    if_neg (by simp)]

lemma decimalOfChars_signed (d1 d2 : Str) (hd1 : ∀ c ∈ d1, c.isDigit = true)
    (hd2 : ∀ c ∈ d2, c.isDigit = true) (hne : d1 ≠ []) :
    decimalOfChars ('-' :: (d1 ++ '.' :: d2))
      = some ⟨-(digitsVal (d1 ++ d2) : ℤ), d2.length⟩ := by
  have hsigned : (decide (('-' :: (d1 ++ '.' :: d2) : Str).head? = some '-')) = true := by
    rw [List.head?_cons]
    exact decide_eq_true rfl
  obtain ⟨hany, hcount⟩ := decimalOfChars_body d1 d2 hd1 hd2
  simp only [decimalOfChars, hsigned, if_true, List.tail_cons]
  rw [if_neg (by rw [hany]; simp), if_neg (by rw [hcount]; omega),
    takeWhile_digits_dot _ _ hd1, dropWhile_digits_dot _ _ hd1, List.tail_cons,
    if_neg (by simp [List.length_eq_zero, hne])]

lemma cleanChars_grammar (n1 n2 sign d1 d2 : Str) (sep : Char)
    (hn1 : ∀ c ∈ n1, noiseChar c = true) (hn2 : ∀ c ∈ n2, noiseChar c = true)
    (hsign : sign = [] ∨ sign = ['-'])
    (hd1 : ∀ c ∈ d1, c.isDigit = true) (hd2 : ∀ c ∈ d2, c.isDigit = true)
    (hsep : sep = ',' ∨ sep = '.') :
    cleanChars (n1 ++ sign ++ d1 ++ sep :: d2 ++ n2) = sign ++ d1 ++ '.' :: d2 := by
  have hstep : (sep :: d2 : Str) = [sep] ++ d2 := rfl
  rw [hstep, cleanChars_append, cleanChars_append, cleanChars_append, cleanChars_append,
    cleanChars_append, cleanChars_noise n1 hn1, cleanChars_noise n2 hn2,
    cleanChars_digits d1 hd1, cleanChars_digits d2 hd2]
  have hsepc : cleanChars [sep] = ['.'] := by
    rcases hsep with rfl | rfl <;> decide
  have hsignc : cleanChars sign = sign := by
    rcases hsign with rfl | rfl <;> decide
  rw [hsepc, hsignc]
  simp

/-- C5: for every string of the form noise, optional minus, digits, one
comma-or-period separator, digits, noise — where noise characters are
anything but digits, periods, commas, and minus signs (whitespace and
unit suffixes qualify) — the Decimal Cell Parser returns the
mathematically equal exact decimal, treating comma and period
identically; and for `"-"`, `"—"`, `""` and `None` it returns absent. -/
theorem C5_parse_decimal_wellformed :
    (∀ (n1 n2 sign d1 d2 : Str) (sep : Char),
      (∀ c ∈ n1, noiseChar c = true) → (∀ c ∈ n2, noiseChar c = true) →
      (sign = [] ∨ sign = ['-']) → d1 ≠ [] → d2 ≠ [] →
      (∀ c ∈ d1, c.isDigit = true) → (∀ c ∈ d2, c.isDigit = true) →
      (sep = ',' ∨ sep = '.') →
      ∃ v : Dec,
        parse_decimal (some (n1 ++ sign ++ d1 ++ sep :: d2 ++ n2)) = some v ∧
        v.toRat = (if sign = [] then 1 else -1) *
          ((digitsVal d1 : ℚ) + (digitsVal d2 : ℚ) / 10 ^ d2.length)) ∧
    parse_decimal none = none ∧ parse_decimal (someStr "") = none ∧
    parse_decimal (someStr "-") = none ∧ parse_decimal (someStr "—") = none := by
  refine ⟨?_, rfl, by decide, by decide, by decide⟩
  intro n1 n2 sign d1 d2 sep hn1 hn2 hsign hne1 hne2 hd1 hd2 hsep
  have hcleanw := cleanChars_grammar n1 n2 sign d1 d2 sep hn1 hn2 hsign hd1 hd2 hsep
  have hl1 : 0 < d1.length := List.length_pos.2 hne1
  have hl2 : 0 < d2.length := List.length_pos.2 hne2
  have hsiglen : sign.length ≤ 1 := by
    rcases hsign with rfl | rfl <;> simp
  have hsent : ¬(pyStrip (n1 ++ sign ++ d1 ++ sep :: d2 ++ n2) = [] ∨
      pyStrip (n1 ++ sign ++ d1 ++ sep :: d2 ++ n2) = ['-'] ∨
      pyStrip (n1 ++ sign ++ d1 ++ sep :: d2 ++ n2) = ['—']) := by
    have hx := cleanChars_strip (n1 ++ sign ++ d1 ++ sep :: d2 ++ n2)
    rw [hcleanw] at hx
    rintro (h | h | h) <;> rw [h] at hx
    · rw [show cleanChars [] = [] from rfl] at hx
      have := congrArg List.length hx
      simp at this
      omega
    · rw [show cleanChars ['-'] = ['-'] from rfl] at hx
      have := congrArg List.length hx
      simp at this
      omega
    · rw [show cleanChars ['—'] = [] by decide] at hx
      have := congrArg List.length hx
      simp at this
      omega
  have hcl : List.filter keepChar
      ((pyStrip (n1 ++ sign ++ d1 ++ sep :: d2 ++ n2)).map
        (fun c => if c = ',' then '.' else c)) = sign ++ d1 ++ '.' :: d2 := by
    have hx := cleanChars_strip (n1 ++ sign ++ d1 ++ sep :: d2 ++ n2)
    rw [hcleanw] at hx
    unfold cleanChars at hx
    exact hx
  rcases hsign with rfl | rfl
  · refine ⟨⟨(digitsVal (d1 ++ d2) : ℤ), d2.length⟩, ?_, ?_⟩
    · simp only [parse_decimal]
      rw [if_neg hsent, hcl]
      rw [List.nil_append]
      rw [if_neg (by
        obtain ⟨c0, d1', rfl⟩ := List.exists_cons_of_ne_nil hne1
        simp)]
      rw [decimalOfChars_unsigned d1 d2 hd1 hd2 hne1]
    · unfold Dec.toRat
      rw [digitsVal_append, if_pos rfl, one_mul]
      push_cast
      field_simp
  · refine ⟨⟨-(digitsVal (d1 ++ d2) : ℤ), d2.length⟩, ?_, ?_⟩
    · simp only [parse_decimal]
      rw [if_neg hsent, hcl]
      rw [show (['-'] ++ d1 ++ '.' :: d2 : Str) = '-' :: (d1 ++ '.' :: d2) from rfl]
      rw [if_neg (by simp)]
      rw [decimalOfChars_signed d1 d2 hd1 hd2 hne1]
    · unfold Dec.toRat
      rw [digitsVal_append, if_neg (by simp), neg_mul, one_mul]
      push_cast
      rw [neg_div]
      rw [neg_inj]
      field_simp

/-- C5 witness: `" 81,03 кВт"` (noise, digits, comma separator, unit
noise) parses to the decimal equal to `81.03`. -/
theorem C5_parse_decimal_wellformed_witness :
    ∃ v : Dec,
      parse_decimal (some (([' '] : Str) ++ ([] : Str) ++ (['8', '1'] : Str) ++
        ',' :: (['0', '3'] : Str) ++ (" кВт").toList)) = some v ∧
      v.toRat = (if ([] : Str) = [] then 1 else -1) *
        ((digitsVal ['8', '1'] : ℚ) + (digitsVal ['0', '3'] : ℚ) / 10 ^ (['0', '3'] : Str).length) :=
  C5_parse_decimal_wellformed.1 [' '] (" кВт").toList [] ['8', '1'] ['0', '3'] ','
    (by decide) (by decide) (Or.inl rfl) (by decide) (by decide) (by decide) (by decide)
    (Or.inl rfl)

lemma matchAt_nil : matchAt ([] : Str) = none := rfl

lemma searchDate_eq_none_iff (t : Str) :
    searchDate t = none ↔ ∀ i, matchAt (t.drop i) = none := by
  induction t with
  | nil =>
    constructor
    · intro _ i
      rw [List.drop_nil]
      exact matchAt_nil
    · intro _
      rfl
  | cons c r ih =>
    constructor
    · intro h i
      have hsplit : matchAt (c :: r) = none ∧ searchDate r = none := by
        cases hm : matchAt (c :: r) with
        | some v =>
          unfold searchDate at h
          rw [hm] at h
          simp at h
        | none =>
          unfold searchDate at h
          rw [hm] at h
          simp at h
          exact ⟨rfl, h⟩
      cases i with
      | zero =>
        rw [List.drop_zero]
        exact hsplit.1
      | succ j =>
        rw [List.drop_succ_cons]
        exact (ih.1 hsplit.2) j
    · intro h
      have h0 := h 0
      rw [List.drop_zero] at h0
      have hr : ∀ j, matchAt (r.drop j) = none := by
        intro j
        have := h (j + 1)
        rwa [List.drop_succ_cons] at this
      unfold searchDate
      rw [h0, ih.2 hr]
      rfl

lemma searchDate_first (t : Str) (i : ℕ) (g : ℕ × ℕ × ℕ)
    (hm : matchAt (t.drop i) = some g) (hfirst : ∀ j, j < i → matchAt (t.drop j) = none) :
    searchDate t = some g := by
  induction t generalizing i with
  | nil =>
    rw [List.drop_nil, matchAt_nil] at hm
    cases hm
  | cons c r ih =>
    cases i with
    | zero =>
      rw [List.drop_zero] at hm
      unfold searchDate
      rw [hm]
      rfl
    | succ j =>
      have h0 := hfirst 0 (Nat.succ_pos j)
      rw [List.drop_zero] at h0
      rw [List.drop_succ_cons] at hm
      unfold searchDate
      rw [h0]
      have hrec := ih j hm (fun j' hj' => by
        have := hfirst (j' + 1) (Nat.succ_lt_succ hj')
        rwa [List.drop_succ_cons] at this)
      rw [hrec]
      rfl

/-- C6 (amended): the date extractor returns the calendar date of the
first match, in document order, of the pattern `D.MM.YYYY` followed by
optional whitespace and the MANDATORY literal day-marker suffix `й.`
(the two-digit day is tried first at each position), and it raises a
`DataExtractionError`-class failure exactly when the first page has no
text at all, when no match exists, or when the matched numbers do not
form a valid calendar date. -/
theorem C6_amended_date_extraction :
    (∀ t : Option Str, (t = none ∨ t = some []) → extract_date t = .error .noTextInPage) ∧
    (∀ t : Str, t ≠ [] → (∀ i, matchAt (t.drop i) = none) →
      extract_date (some t) = .error .patternNotFound) ∧
    (∀ (t : Str) (i d m y : ℕ), t ≠ [] →
      matchAt (t.drop i) = some (d, m, y) →
      (∀ j, j < i → matchAt (t.drop j) = none) →
      extract_date (some t) =
        (if validDate y m d then .ok ⟨y, m, d⟩ else .error .invalidDateValues)) := by
  refine ⟨?_, ?_, ?_⟩
  · rintro t (rfl | rfl) <;> rfl
  · intro t hne hnone
    show (if t = [] then Except.error DateErr.noTextInPage
          else match searchDate t with
            | some (day, month, year) =>
              if validDate year month day = true then
                Except.ok (CalDate.mk year month day)
              else Except.error DateErr.invalidDateValues
            | none => Except.error DateErr.patternNotFound)
        = Except.error DateErr.patternNotFound
    rw [if_neg hne, (searchDate_eq_none_iff t).2 hnone]
  · intro t i d m y hne hm hfirst
    show (if t = [] then Except.error DateErr.noTextInPage
          else match searchDate t with
            | some (day, month, year) =>
              if validDate year month day = true then
                Except.ok (CalDate.mk year month day)
              else Except.error DateErr.invalidDateValues
            | none => Except.error DateErr.patternNotFound)
        = (if validDate y m d then Except.ok (CalDate.mk y m d)
           else Except.error DateErr.invalidDateValues)
    rw [if_neg hne, searchDate_first t i (d, m, y) hm hfirst]

/-- C6 witness: `"ab 8.01.2026 й. xyz"` has its first (and only) match
at position 3 and yields the valid date 2026-01-08; the no-text and
no-match failure branches are exercised too. -/
theorem C6_amended_date_extraction_witness :
    (extract_date none = .error .noTextInPage) ∧
    (extract_date (some ("нет даты").toList) = .error .patternNotFound) ∧
    (extract_date (some ("ab 8.01.2026 й. xyz").toList) =
      (if validDate 2026 1 8 then .ok ⟨2026, 1, 8⟩ else .error .invalidDateValues)) :=
  ⟨C6_amended_date_extraction.1 none (Or.inl rfl),
   C6_amended_date_extraction.2.1 ("нет даты").toList (by decide) (by
     intro i
     rcases Nat.lt_or_ge i 8 with h | h
     · interval_cases i <;> decide
     · have hlen : ("нет даты").toList.length = 8 := by decide
       rw [List.drop_eq_nil_of_le (by omega)]
       exact matchAt_nil),
   C6_amended_date_extraction.2.2 ("ab 8.01.2026 й. xyz").toList 3 8 1 2026
     (by decide) (by decide) (by decide)⟩

/-- C6 counterexample: under the claim's reading the suffix is optional,
so `"8.01.2026"` alone matches and forms a valid date, yet the extractor
raises `patternNotFound`: the `й.` suffix is mandatory in the code. -/
theorem C6_counterexample_mandatory_suffix :
    matchAtSpec (("8.01.2026").toList) = some (8, 1, 2026) ∧
    validDate 2026 1 8 = true ∧
    extract_date (some (("8.01.2026").toList)) = .error .patternNotFound := by decide
